import Mathlib

/-!
# Verification of the QFN portfolio optimizer

Shallow embedding of `src/main/python/optimize_portfolio.py`.

Conventions of the embedding:

* Python floats are modelled by exact arithmetic: `ℚ` for the solver
  pipeline (whose operations are rational) and `ℝ` where `np.sqrt`
  appears (portfolio metrics and the efficient frontier).
* Vectors of length `n` are `Fin n → ℚ` (resp. `ℝ`), matrices are
  `Matrix (Fin n) (Fin n) ℚ` (resp. `ℝ`).
* External numeric routines are modelled at their interface:
  `np.linalg.inv` succeeds exactly when the determinant is nonzero
  (raising `LinAlgError` otherwise, which the blanket `except` in
  `optimize_with_modern_portfolio_theory` turns into the equal-weight
  fallback); `scipy.optimize.minimize` is modelled by an arbitrary
  result record (success flag plus returned point); the random draws of
  `np.random` are passed in as explicit parameters.
-/

namespace QFN

/-- Per-asset weight bounds, from the `constraints` dict with
`min_weights` / `max_weights` arrays (optimize_portfolio.py lines 181-182). -/
structure Constraints (n : ℕ) where
  min_weights : Fin n → ℚ
  max_weights : Fin n → ℚ

/-- Outcome of the external call `scipy.optimize.minimize` (lines 210-217):
a success flag (`result.success`) and the returned point (`result.x`). -/
structure ScipyResult (n : ℕ) where
  success : Bool
  x : Fin n → ℚ

/-- Validity of a bound set as stated by the spec: `0 ≤ min_i ≤ max_i ≤ 1`,
`sum(min) ≤ 1 ≤ sum(max)`. -/
def validBounds {n : ℕ} (c : Constraints n) : Prop :=
  (∀ i, 0 ≤ c.min_weights i ∧ c.min_weights i ≤ c.max_weights i ∧ c.max_weights i ≤ 1) ∧
    (∑ i, c.min_weights i) ≤ 1 ∧ 1 ≤ ∑ i, c.max_weights i

instance {n : ℕ} (c : Constraints n) : Decidable (validBounds c) := by
  unfold validBounds; infer_instance

/-- Contract of `scipy.optimize.minimize` with SLSQP on success: the returned
point respects the per-coordinate bounds and the equality constraint
`sum(w) = 1` (lines 196-201), stated in exact arithmetic. -/
def scipyRespects {n : ℕ} (c : Constraints n) (r : ScipyResult n) : Prop :=
  r.success = true →
    (∀ i, c.min_weights i ≤ r.x i ∧ r.x i ≤ c.max_weights i) ∧ (∑ i, r.x i) = 1

instance {n : ℕ} (c : Constraints n) (r : ScipyResult n) : Decidable (scipyRespects c r) := by
  unfold scipyRespects; infer_instance

/-- `np.ones(n) / n` (lines 172, 234, 413). -/
def equal_weights (n : ℕ) : Fin n → ℚ := fun _ => 1 / n

/-- `risk_aversion = 2.0 / risk_factor if risk_factor > 0 else 1.0` (line 163). -/
def risk_aversion_of (risk_factor : ℚ) : ℚ :=
  if 0 < risk_factor then 2 / risk_factor else 1

/-- Exact-arithmetic model of `np.linalg.inv` (line 155): the call raises
`LinAlgError` (modelled by `none`) exactly when the matrix is singular,
and otherwise returns the inverse, computed here as `det⁻¹ • adjugate`. -/
def np_linalg_inv {n : ℕ} (A : Matrix (Fin n) (Fin n) ℚ) :
    Option (Matrix (Fin n) (Fin n) ℚ) :=
  if A.det = 0 then none else some ((A.det)⁻¹ • A.adjugate)

/-- `weights = np.dot(inv_cov, returns) / risk_aversion` (line 166). -/
def mpt_pre_weights {n : ℕ} (inv_cov : Matrix (Fin n) (Fin n) ℚ)
    (returns : Fin n → ℚ) (risk_factor : ℚ) : Fin n → ℚ :=
  fun i => inv_cov.mulVec returns i / risk_aversion_of risk_factor

/-- `if weights.sum() > 0: weights = weights / weights.sum() else: equal`
(lines 169-172). -/
def mpt_normalized {n : ℕ} (w : Fin n → ℚ) : Fin n → ℚ :=
  if 0 < ∑ i, w i then fun i => w i / ∑ j, w j else equal_weights n

/-- `w / w.sum()`, the renormalization used at lines 176 and 223. -/
def normalize_weights {n : ℕ} (w : Fin n → ℚ) : Fin n → ℚ :=
  fun i => w i / ∑ j, w j

/-- `weights = np.maximum(weights, 0); weights = weights / weights.sum()`
(lines 175-176): long-only projection. -/
def mpt_project {n : ℕ} (w : Fin n → ℚ) : Fin n → ℚ :=
  normalize_weights (fun i => max (w i) 0)

/-- `np.clip(weights, min_weights, max_weights)` (line 222). -/
def clip_weights {n : ℕ} (c : Constraints n) (x : Fin n → ℚ) : Fin n → ℚ :=
  fun i => min (max (x i) (c.min_weights i)) (c.max_weights i)

/-- The initial guess of the constrained path (lines 204-207): midpoints of
the bounds, normalized to sum 1.  Returned as-is on non-convergence
(lines 226-229). -/
def initial_guess {n : ℕ} (c : Constraints n) : Fin n → ℚ :=
  normalize_weights (fun i => (c.min_weights i + c.max_weights i) / 2)

/-- `optimize_with_modern_portfolio_theory` (lines 142-234).

* `constraints = none`: the analytic branch (lines 153-178).  The call
  `np.linalg.inv` on a singular matrix raises, which the blanket
  `except Exception` at lines 231-234 turns into equal weights.
* `constraints = some c`: the scipy branch (lines 180-229); `scipy = none`
  models an exception escaping the solve (→ equal weights, lines 231-234),
  `some r` with `r.success` the success path (lines 219-224), and
  `some r` without success the non-convergence fallback (lines 225-229). -/
def optimize_with_modern_portfolio_theory (n : ℕ) (returns : Fin n → ℚ)
    (covariance_matrix : Matrix (Fin n) (Fin n) ℚ) (risk_factor : ℚ)
    (constraints : Option (Constraints n)) (scipy : Option (ScipyResult n)) :
    Fin n → ℚ :=
  match constraints with
  | none =>
    match np_linalg_inv covariance_matrix with
    | none => equal_weights n
    | some inv_cov =>
      mpt_project (mpt_normalized (mpt_pre_weights inv_cov returns risk_factor))
  | some c =>
    match scipy with
    | none => equal_weights n
    | some result =>
      if result.success then normalize_weights (clip_weights c result.x)
      else initial_guess c

/-- The assignment of the decoded QAOA bitstring: `result.variables_dict`
restricted to the bits `x_i_bit`, thresholded at 0.5 (lines 782-788). -/
structure QaoaSolution (n : ℕ) where
  bits : Fin n → Fin 4 → Bool

/-- Decoding of a QAOA solution (lines 782-794): `weights[i] += 2**bit / 15`
for every set bit, then normalize, falling back to equal weights when the
decoded vector sums to zero. -/
def qaoa_decode (n : ℕ) (sol : QaoaSolution n) : Fin n → ℚ :=
  let weights : Fin n → ℚ :=
    fun i => ∑ b : Fin 4, if sol.bits i b then (2 ^ (b : ℕ) : ℚ) / 15 else 0
  if 0 < ∑ i, weights i then normalize_weights weights else equal_weights n

/-- `optimize_with_qaoa` (lines 715-804): if the quantum toolchain is
unavailable, or if the quantum solve raises (`sol = none`), route to the
unconstrained classical solver; otherwise decode the QAOA result. -/
def optimize_with_qaoa (quantum_available : Bool) (n : ℕ) (returns : Fin n → ℚ)
    (covariance_matrix : Matrix (Fin n) (Fin n) ℚ) (risk_factor : ℚ)
    (sol : Option (QaoaSolution n)) : Fin n → ℚ :=
  if quantum_available then
    match sol with
    | some s => qaoa_decode n s
    | none =>
      optimize_with_modern_portfolio_theory n returns covariance_matrix risk_factor
        none none
  else
    optimize_with_modern_portfolio_theory n returns covariance_matrix risk_factor
      none none

/-- The assignment of the decoded VQE selection bits `x_i` (lines 858-863). -/
structure VqeSolution (n : ℕ) where
  bits : Fin n → Bool

/-- Decoding of a VQE solution (lines 857-870): equal split over the selected
assets, equal weights over all assets when none is selected. -/
def vqe_decode (n : ℕ) (sol : VqeSolution n) : Fin n → ℚ :=
  let selected := Finset.univ.filter fun i => sol.bits i = true
  if selected.Nonempty then
    fun i => if i ∈ selected then 1 / selected.card else 0
  else equal_weights n

/-- `optimize_with_vqe` (lines 807-880): same fallback routing as QAOA. -/
def optimize_with_vqe (quantum_available : Bool) (n : ℕ) (returns : Fin n → ℚ)
    (covariance_matrix : Matrix (Fin n) (Fin n) ℚ) (risk_factor : ℚ)
    (sol : Option (VqeSolution n)) : Fin n → ℚ :=
  if quantum_available then
    match sol with
    | some s => vqe_decode n s
    | none =>
      optimize_with_modern_portfolio_theory n returns covariance_matrix risk_factor
        none none
  else
    optimize_with_modern_portfolio_theory n returns covariance_matrix risk_factor
      none none

/-- `risk_factor = target_risk / 10.0` in `main` (line 917). -/
def main_risk_factor (targetRiskLevel : ℚ) : ℚ := targetRiskLevel / 10

/-- `risk_factor = 5.0  # Default risk level` in `backtest_optimization`
(line 375): the hard-coded risk factor the backtest passes to
`optimize_with_modern_portfolio_theory` at line 376. -/
def backtest_risk_factor : ℚ := 5

/-!
## Data fetching (lines 36-127)

The downloaded price table is an interface parameter (`yf.download` is an
external collaborator); the random uniform correlation draw of the
simulated generator is likewise a parameter.  The spec names an
`InsufficientDataError`; the outcome type below has a constructor for it
so that the claim "the stage fails with InsufficientDataError" is
statable, but no code path of the source produces it.
-/

/-- Result of the data-fetch stage: either a (returns, covariance) pair or
the `InsufficientDataError` the spec postulates (the latter is modelled
from the spec; the source never raises it). -/
inductive FetchOutcome (n : ℕ)
  | ok (returns : Fin n → ℚ) (cov : Matrix (Fin n) (Fin n) ℚ)
  | insufficientData

/-- Whether a fetch outcome delivered a (returns, covariance) pair. -/
def FetchOutcome.isOk {n : ℕ} : FetchOutcome n → Bool
  | .ok _ _ => true
  | .insufficientData => false

/-- `fetch_simulated_data` (lines 91-119) for `n` stocks with the given risk
levels.  `U` is the matrix drawn by `np.random.uniform(0.3, 0.7, (n, n))`
(line 113); the function symmetrizes it, puts 1 on the diagonal, and scales
by the outer product of the volatilities. -/
def fetch_simulated_data (n : ℕ) (riskLevels : Fin n → ℚ)
    (U : Matrix (Fin n) (Fin n) ℚ) : FetchOutcome n :=
  let returns : Fin n → ℚ := fun i => 5 / 100 + riskLevels i / 100 * (15 / 100)
  let volatility : Fin n → ℚ := fun i => riskLevels i / 100 * (3 / 10)
  let corr : Matrix (Fin n) (Fin n) ℚ :=
    Matrix.of fun i j => if i = j then 1 else (U i j + U j i) / 2
  .ok returns (Matrix.of fun i j => volatility i * volatility j * corr i j)

/-- One row of downloaded close prices, index-aligned to the assets. -/
def PriceRow (n : ℕ) := Fin n → ℚ

/-- `prices.pct_change().dropna()` (lines 63, 68): simple returns between
consecutive rows; the first row is dropped. -/
def pct_change {n : ℕ} : List (PriceRow n) → List (PriceRow n)
  | [] => []
  | [_] => []
  | p :: q :: rest => (fun i => (q i - p i) / p i) :: pct_change (q :: rest)

/-- Mean of each column of a list of rows.  For the empty list this models
the value 0 where pandas produces NaN; the claims never observe that case
beyond "a pair is returned". -/
def column_mean {n : ℕ} (rows : List (PriceRow n)) : Fin n → ℚ :=
  fun i => (rows.map fun r => r i).sum / rows.length

/-- Sample covariance of the columns (pandas `cov`, denominator `len - 1`),
again with the 0-for-NaN convention on degenerate lengths. -/
def column_cov {n : ℕ} (rows : List (PriceRow n)) : Matrix (Fin n) (Fin n) ℚ :=
  let m := column_mean rows
  Matrix.of fun i j =>
    (rows.map fun r => (r i - m i) * (r j - m j)).sum / (rows.length - 1 : ℚ)

/-- `fetch_real_historical_data` (lines 36-88).  `table = none` models an
empty download (`data.empty`, line 56): the source then falls back to the
simulated generator.  A non-empty table is annualized with factor 252. -/
def fetch_real_historical_data (n : ℕ) (riskLevels : Fin n → ℚ)
    (use_real_data : Bool) (table : Option (List (PriceRow n)))
    (U : Matrix (Fin n) (Fin n) ℚ) : FetchOutcome n :=
  if !use_real_data then fetch_simulated_data n riskLevels U
  else
    match table with
    | none => fetch_simulated_data n riskLevels U
    | some rows =>
      let returns_data := pct_change rows
      .ok (fun i => column_mean returns_data i * 252)
        (Matrix.of fun i j => column_cov returns_data i j * 252)

/-!
## Portfolio metrics and efficient frontier (lines 251-313)

These involve `np.sqrt`, so they live in `ℝ`.
-/

/-- Exact model of Python `round(x, k)`: scale by `10^k`, round to the
nearest integer, and scale back.  (Python rounds ties on binary floats to
even; the model rounds ties up — the two agree except at exact ties, which
no claim exercises.) -/
noncomputable def pyround (k : ℕ) (x : ℝ) : ℝ := (round (x * 10 ^ k) : ℤ) / 10 ^ k

/-- The dict returned by `calculate_portfolio_metrics` (lines 264-268). -/
structure PortfolioMetrics where
  expectedReturn : ℝ
  expectedRisk : ℝ
  sharpe : ℝ

/-- `calculate_portfolio_metrics` (lines 251-268): expected return
`w · r`, risk `sqrt(wᵗ C w)` (no clamping of the radicand appears in the
source), Sharpe `(ret - 0.02) / risk` guarded by `risk > 0`, each scaled
by 100 (except Sharpe) and rounded. -/
noncomputable def calculate_portfolio_metrics {n : ℕ} (returns : Fin n → ℝ)
    (covariance_matrix : Matrix (Fin n) (Fin n) ℝ) (weights : Fin n → ℝ) :
    PortfolioMetrics :=
  let portfolio_return := Matrix.dotProduct weights returns
  let portfolio_variance := Matrix.dotProduct weights (covariance_matrix.mulVec weights)
  let portfolio_risk := Real.sqrt portfolio_variance
  let sharpe :=
    if 0 < portfolio_risk then (portfolio_return - 2 / 100) / portfolio_risk else 0
  { expectedReturn := pyround 2 (portfolio_return * 100)
    expectedRisk := pyround 2 (portfolio_risk * 100)
    sharpe := pyround 3 sharpe }

/-- One entry of the `results` list of `generate_efficient_frontier`
(lines 295-299). -/
structure FrontierPoint where
  risk : ℝ
  ret : ℝ
  sharpe : ℝ

/-- The per-sample computation of `generate_efficient_frontier`
(lines 283-299): normalize the random draw to weights, compute return,
risk and Sharpe, scale and round. -/
noncomputable def frontier_sample_point {n : ℕ} (returns : Fin n → ℝ)
    (covariance_matrix : Matrix (Fin n) (Fin n) ℝ) (rand_weights : Fin n → ℝ) :
    FrontierPoint :=
  let weights : Fin n → ℝ := fun i => rand_weights i / ∑ j, rand_weights j
  let portfolio_return := Matrix.dotProduct weights returns
  let portfolio_variance := Matrix.dotProduct weights (covariance_matrix.mulVec weights)
  let portfolio_risk := Real.sqrt portfolio_variance
  let sharpe :=
    if 0 < portfolio_risk then (portfolio_return - 2 / 100) / portfolio_risk else 0
  { risk := pyround 2 (portfolio_risk * 100)
    ret := pyround 2 (portfolio_return * 100)
    sharpe := pyround 3 sharpe }

/-- `results.sort(key=lambda x: x['risk'])` (line 302). -/
noncomputable def frontier_sort (l : List FrontierPoint) : List FrontierPoint :=
  l.insertionSort fun p q => p.risk ≤ q.risk

/-- The dominance sweep of lines 305-311: keep a portfolio only when its
return strictly exceeds the running maximum (`none` models the initial
`-float('inf')`). -/
noncomputable def frontier_sweep : List FrontierPoint → Option ℝ → List FrontierPoint
  | [], _ => []
  | p :: rest, none => p :: frontier_sweep rest (some p.ret)
  | p :: rest, some m =>
    if m < p.ret then p :: frontier_sweep rest (some p.ret)
    else frontier_sweep rest (some m)

/-- `generate_efficient_frontier` (lines 271-313): `rand k` is the vector
drawn by `np.random.random(n_assets)` in iteration `k` of the loop. -/
noncomputable def generate_efficient_frontier {n : ℕ} (returns : Fin n → ℝ)
    (covariance_matrix : Matrix (Fin n) (Fin n) ℝ) (num_portfolios : ℕ)
    (rand : ℕ → Fin n → ℝ) : List FrontierPoint :=
  frontier_sweep
    (frontier_sort ((List.range num_portfolios).map fun k =>
      frontier_sample_point returns covariance_matrix (rand k)))
    none

/-!
## Helper lemmas
-/

lemma sum_equal_weights {n : ℕ} (hn : 0 < n) : (∑ i, equal_weights n i) = 1 := by
  have hn' : (n : ℚ) ≠ 0 := Nat.cast_ne_zero.mpr hn.ne'
  simp only [equal_weights, Finset.sum_const, Finset.card_univ, Fintype.card_fin,
    nsmul_eq_mul]
  field_simp

lemma equal_weights_nonneg {n : ℕ} (i : Fin n) : 0 ≤ equal_weights n i := by
  unfold equal_weights
  positivity

lemma sum_normalize {n : ℕ} (w : Fin n → ℚ) (h : (∑ i, w i) ≠ 0) :
    (∑ i, normalize_weights w i) = 1 := by
  unfold normalize_weights
  rw [← Finset.sum_div, div_self h]

lemma mpt_normalized_sum {n : ℕ} (hn : 0 < n) (w : Fin n → ℚ) :
    (∑ i, mpt_normalized w i) = 1 := by
  unfold mpt_normalized
  split
  · next h => rw [← Finset.sum_div, div_self h.ne']
  · exact sum_equal_weights hn

lemma mpt_project_valid {n : ℕ} (w : Fin n → ℚ) (hsum : (∑ i, w i) = 1) :
    (∀ i, 0 ≤ mpt_project w i) ∧ (∑ i, mpt_project w i) = 1 := by
  have h1 : (1 : ℚ) ≤ ∑ i, max (w i) 0 := by
    calc (1 : ℚ) = ∑ i, w i := hsum.symm
    _ ≤ ∑ i, max (w i) 0 := Finset.sum_le_sum fun i _ => le_max_left _ _
  have hpos : (0 : ℚ) < ∑ i, max (w i) 0 := lt_of_lt_of_le one_pos h1
  constructor
  · intro i
    exact div_nonneg (le_max_right _ _) hpos.le
  · exact sum_normalize _ hpos.ne'

lemma pyround_nonneg (k : ℕ) (x : ℝ) (hx : 0 ≤ x) : 0 ≤ pyround k x := by
  unfold pyround
  have h1 : (0 : ℤ) ≤ round (x * 10 ^ k) := by
    rw [round_eq]
    exact Int.floor_nonneg.mpr (by positivity)
  have h2 : (0 : ℝ) ≤ (round (x * 10 ^ k) : ℤ) := by exact_mod_cast h1
  positivity

lemma pyround_zero (k : ℕ) : pyround k 0 = 0 := by
  unfold pyround
  simp

instance : IsTotal FrontierPoint fun p q => p.risk ≤ q.risk :=
  ⟨fun a b => le_total a.risk b.risk⟩

instance : IsTrans FrontierPoint fun p q => p.risk ≤ q.risk :=
  ⟨fun _ _ _ hab hbc => le_trans hab hbc⟩

lemma frontier_sweep_sublist (l : List FrontierPoint) :
    ∀ acc, List.Sublist (frontier_sweep l acc) l := by
  induction l with
  | nil =>
    intro acc
    cases acc <;> exact List.Sublist.refl _
  | cons p rest ih =>
    intro acc
    cases acc with
    | none => simpa [frontier_sweep] using (ih (some p.ret)).cons₂ p
    | some m =>
      by_cases h : m < p.ret
      · simpa [frontier_sweep, if_pos h] using (ih (some p.ret)).cons₂ p
      · simpa [frontier_sweep, if_neg h] using (ih (some m)).cons p

lemma frontier_sweep_mem_gt (l : List FrontierPoint) :
    ∀ (m : ℝ) q, q ∈ frontier_sweep l (some m) → m < q.ret := by
  induction l with
  | nil =>
    intro m q hq
    simp [frontier_sweep] at hq
  | cons p rest ih =>
    intro m q hq
    by_cases h : m < p.ret
    · rw [frontier_sweep, if_pos h] at hq
      rcases List.mem_cons.mp hq with rfl | hq'
      · exact h
      · exact lt_trans h (ih p.ret q hq')
    · rw [frontier_sweep, if_neg h] at hq
      exact ih m q hq

lemma frontier_sweep_ret_sorted (l : List FrontierPoint) :
    ∀ acc, (frontier_sweep l acc).Sorted fun p q => p.ret < q.ret := by
  induction l with
  | nil =>
    intro acc
    cases acc <;> exact List.sorted_nil
  | cons p rest ih =>
    intro acc
    cases acc with
    | none =>
      rw [frontier_sweep]
      exact List.sorted_cons.mpr
        ⟨fun q hq => frontier_sweep_mem_gt rest p.ret q hq, ih (some p.ret)⟩
    | some m =>
      by_cases h : m < p.ret
      · rw [frontier_sweep, if_pos h]
        exact List.sorted_cons.mpr
          ⟨fun q hq => frontier_sweep_mem_gt rest p.ret q hq, ih (some p.ret)⟩
      · rw [frontier_sweep, if_neg h]
        exact ih (some m)

/-!
## Claim theorems
-/

/-- C1: for every valid input (n ≥ 1; when constraints are given, feasible
bounds and a solver result honouring the scipy success contract), the
weight vector returned by `optimize_with_modern_portfolio_theory` — in the
unconstrained path, the constrained success path, the non-convergence
fallback and the exception fallback — has nonnegative entries and sums to
1 within tolerance 1e-6. -/
theorem mpt_weights_nonneg_sum_one (n : ℕ) (returns : Fin n → ℚ)
    (covariance_matrix : Matrix (Fin n) (Fin n) ℚ) (risk_factor : ℚ)
    (constraints : Option (Constraints n)) (scipy : Option (ScipyResult n))
    (hn : 0 < n)
    (hb : ∀ c, constraints = some c → validBounds c)
    (hs : ∀ c r, constraints = some c → scipy = some r → scipyRespects c r) :
    (∀ i, 0 ≤ optimize_with_modern_portfolio_theory n returns covariance_matrix
        risk_factor constraints scipy i) ∧
      |(∑ i, optimize_with_modern_portfolio_theory n returns covariance_matrix
        risk_factor constraints scipy i) - 1| ≤ 1 / 1000000 := by
  suffices h : (∀ i, 0 ≤ optimize_with_modern_portfolio_theory n returns
      covariance_matrix risk_factor constraints scipy i) ∧
      (∑ i, optimize_with_modern_portfolio_theory n returns covariance_matrix
        risk_factor constraints scipy i) = 1 by
    refine ⟨h.1, ?_⟩
    rw [h.2]
    norm_num
  have hequal : (∀ i, 0 ≤ equal_weights n i) ∧ (∑ i, equal_weights n i) = 1 :=
    ⟨equal_weights_nonneg, sum_equal_weights hn⟩
  cases constraints with
  | none =>
    simp only [optimize_with_modern_portfolio_theory]
    cases np_linalg_inv covariance_matrix with
    | none => exact hequal
    | some inv_cov =>
      exact mpt_project_valid _ (mpt_normalized_sum hn _)
  | some c =>
    cases scipy with
    | none => exact hequal
    | some r =>
      have hbc := hb c rfl
      obtain ⟨succ, x⟩ := r
      cases succ with
      | true =>
        obtain ⟨hx, hxsum⟩ := hs c ⟨true, x⟩ rfl rfl rfl
        have hgoal : optimize_with_modern_portfolio_theory n returns
            covariance_matrix risk_factor (some c) (some ⟨true, x⟩) =
            normalize_weights (clip_weights c x) := rfl
        rw [hgoal]
        have hclip : ∀ i, clip_weights c x i = x i := by
          intro i
          simp only [clip_weights]
          rw [max_eq_left (hx i).1, min_eq_left (hx i).2]
        have hclipsum : (∑ i, clip_weights c x i) = 1 := by
          rw [Finset.sum_congr rfl fun i _ => hclip i, hxsum]
        constructor
        · intro i
          have hv : normalize_weights (clip_weights c x) i = x i := by
            simp only [normalize_weights, hclipsum, hclip i, div_one]
          rw [hv]
          exact le_trans (hbc.1 i).1 (hx i).1
        · exact sum_normalize _ (by rw [hclipsum]; norm_num)
      | false =>
        have hgoal : optimize_with_modern_portfolio_theory n returns
            covariance_matrix risk_factor (some c) (some ⟨false, x⟩) =
            initial_guess c := rfl
        rw [hgoal]
        simp only [initial_guess]
        obtain ⟨hlo, hminsum, hmaxsum⟩ := hbc
        have hmid : ∀ i, 0 ≤ (c.min_weights i + c.max_weights i) / 2 := by
          intro i
          have h1 := (hlo i).1
          have h2 := (hlo i).2.1
          linarith
        have hsplit : (∑ i, (c.min_weights i + c.max_weights i) / 2)
            = ((∑ i, c.min_weights i) + ∑ i, c.max_weights i) / 2 := by
          rw [← Finset.sum_div, Finset.sum_add_distrib]
        have h0 : 0 ≤ ∑ i, c.min_weights i :=
          Finset.sum_nonneg fun i _ => (hlo i).1
        have hSpos : 0 < ∑ i, (c.min_weights i + c.max_weights i) / 2 := by
          rw [hsplit]
          linarith
        refine ⟨fun i => ?_, ?_⟩
        · exact div_nonneg (hmid i) hSpos.le
        · exact sum_normalize _ hSpos.ne'

/-- Witness for C1: a concrete unconstrained single-asset instance. -/
theorem mpt_weights_nonneg_sum_one_witness :
    (0 < 1 ∧
      (∀ c, (none : Option (Constraints 1)) = some c → validBounds c) ∧
      (∀ c r, (none : Option (Constraints 1)) = some c →
        (none : Option (ScipyResult 1)) = some r → scipyRespects c r)) ∧
    ((∀ i, 0 ≤ optimize_with_modern_portfolio_theory 1 (fun _ => 1) 1 (1 / 2)
        none none i) ∧
      |(∑ i, optimize_with_modern_portfolio_theory 1 (fun _ => 1) 1 (1 / 2)
        none none i) - 1| ≤ 1 / 1000000) :=
  ⟨⟨Nat.one_pos, fun _ h => Option.noConfusion h,
      fun _ _ h => Option.noConfusion h⟩,
    mpt_weights_nonneg_sum_one 1 (fun _ => 1) 1 (1 / 2) none none Nat.one_pos
      (fun _ h => Option.noConfusion h) (fun _ _ h => Option.noConfusion h)⟩

/-- C4: when the quantum toolchain is unavailable, `optimize_with_qaoa` and
`optimize_with_vqe` return exactly the weight vector of the classical
solver in unconstrained mode on the identical inputs. -/
theorem quantum_unavailable_routes_to_classical (n : ℕ) (returns : Fin n → ℚ)
    (covariance_matrix : Matrix (Fin n) (Fin n) ℚ) (risk_factor : ℚ)
    (qsol : Option (QaoaSolution n)) (vsol : Option (VqeSolution n)) :
    optimize_with_qaoa false n returns covariance_matrix risk_factor qsol =
      optimize_with_modern_portfolio_theory n returns covariance_matrix
        risk_factor none none ∧
    optimize_with_vqe false n returns covariance_matrix risk_factor vsol =
      optimize_with_modern_portfolio_theory n returns covariance_matrix
        risk_factor none none :=
  ⟨rfl, rfl⟩

/-- C2 (amended): in the unconstrained mode, when `np.linalg.inv` succeeds,
the pre-projection sum is positive and no clamping occurred (all
pre-projection weights nonnegative), the output is proportional to
`Cov⁻¹·returns`. -/
theorem unconstrained_proportional_when_no_clamping (n : ℕ) (returns : Fin n → ℚ)
    (covariance_matrix : Matrix (Fin n) (Fin n) ℚ) (risk_factor : ℚ)
    (inv_cov : Matrix (Fin n) (Fin n) ℚ)
    (hinv : np_linalg_inv covariance_matrix = some inv_cov)
    (hsum : 0 < ∑ i, mpt_pre_weights inv_cov returns risk_factor i)
    (hpos : ∀ i, 0 ≤ mpt_pre_weights inv_cov returns risk_factor i) :
    ∃ c : ℚ, c ≠ 0 ∧ ∀ i,
      optimize_with_modern_portfolio_theory n returns covariance_matrix risk_factor
        none none i = c * inv_cov.mulVec returns i := by
  have hlam0 : risk_aversion_of risk_factor ≠ 0 := by
    rw [risk_aversion_of]
    split
    · next h => exact div_ne_zero two_ne_zero (ne_of_gt h)
    · exact one_ne_zero
  refine ⟨(risk_aversion_of risk_factor * ∑ i, mpt_pre_weights inv_cov returns
      risk_factor i)⁻¹, inv_ne_zero (mul_ne_zero hlam0 hsum.ne'), ?_⟩
  intro i
  have hmain : optimize_with_modern_portfolio_theory n returns covariance_matrix
      risk_factor none none =
      mpt_project (mpt_normalized (mpt_pre_weights inv_cov returns risk_factor)) := by
    simp only [optimize_with_modern_portfolio_theory, hinv]
  rw [hmain]
  have hw1 : mpt_normalized (mpt_pre_weights inv_cov returns risk_factor)
      = fun j => mpt_pre_weights inv_cov returns risk_factor j /
          ∑ k, mpt_pre_weights inv_cov returns risk_factor k := by
    rw [mpt_normalized, if_pos hsum]
  rw [hw1]
  have hnn : ∀ j, 0 ≤ mpt_pre_weights inv_cov returns risk_factor j /
      ∑ k, mpt_pre_weights inv_cov returns risk_factor k :=
    fun j => div_nonneg (hpos j) hsum.le
  have hsum1 : (∑ j, mpt_pre_weights inv_cov returns risk_factor j /
      ∑ k, mpt_pre_weights inv_cov returns risk_factor k) = 1 := by
    rw [← Finset.sum_div, div_self hsum.ne']
  simp only [mpt_project, normalize_weights]
  rw [Finset.sum_congr rfl fun j _ => max_eq_left (hnn j), hsum1,
    max_eq_left (hnn i), div_one]
  simp only [mpt_pre_weights]
  rw [div_div, div_eq_mul_inv, mul_comm]

/-- Witness for C2 (amended): single asset, identity covariance. -/
theorem unconstrained_proportional_when_no_clamping_witness :
    (np_linalg_inv (1 : Matrix (Fin 1) (Fin 1) ℚ) = some 1 ∧
      0 < ∑ i, mpt_pre_weights (1 : Matrix (Fin 1) (Fin 1) ℚ)
        (fun _ => 1) (1 / 2) i ∧
      ∀ i, 0 ≤ mpt_pre_weights (1 : Matrix (Fin 1) (Fin 1) ℚ)
        (fun _ => 1) (1 / 2) i) ∧
    ∃ c : ℚ, c ≠ 0 ∧ ∀ i,
      optimize_with_modern_portfolio_theory 1 (fun _ => 1) 1 (1 / 2) none none i
        = c * (1 : Matrix (Fin 1) (Fin 1) ℚ).mulVec (fun _ => 1) i := by
  have hinv : np_linalg_inv (1 : Matrix (Fin 1) (Fin 1) ℚ) = some 1 := by
    simp [np_linalg_inv, Matrix.det_one, Matrix.adjugate_one]
  have hpre : ∀ i, mpt_pre_weights (1 : Matrix (Fin 1) (Fin 1) ℚ)
      (fun _ => 1) (1 / 2) i = 1 / 4 := by
    intro i
    rw [mpt_pre_weights, Matrix.one_mulVec, risk_aversion_of,
      if_pos (by norm_num : (0 : ℚ) < 1 / 2)]
    norm_num
  have hsum : 0 < ∑ i, mpt_pre_weights (1 : Matrix (Fin 1) (Fin 1) ℚ)
      (fun _ => 1) (1 / 2) i := by
    rw [Fin.sum_univ_one, hpre 0]
    norm_num
  have hpos : ∀ i, 0 ≤ mpt_pre_weights (1 : Matrix (Fin 1) (Fin 1) ℚ)
      (fun _ => 1) (1 / 2) i := by
    intro i
    rw [hpre i]
    norm_num
  exact ⟨⟨hinv, hsum, hpos⟩,
    unconstrained_proportional_when_no_clamping 1 (fun _ => 1) 1 (1 / 2) 1
      hinv hsum hpos⟩

/-- C2 counterexample: with identity covariance, returns (1, -2) and risk
factor 1/2, the pre-projection sum is negative, so the code takes the
equal-weight fallback; no clamping occurs (the fallback weights are
nonnegative), yet the output (1/2, 1/2) is not proportional to
`Cov⁻¹·returns = (1, -2)`. -/
theorem unconstrained_proportionality_counterexample :
    np_linalg_inv (1 : Matrix (Fin 2) (Fin 2) ℚ) = some 1 ∧
    (∀ i, 0 ≤ mpt_normalized (mpt_pre_weights (1 : Matrix (Fin 2) (Fin 2) ℚ)
      ![1, -2] (1 / 2)) i) ∧
    ¬ ∃ c : ℚ, ∀ i,
      optimize_with_modern_portfolio_theory 2 ![1, -2] 1 (1 / 2) none none i
        = c * (1 : Matrix (Fin 2) (Fin 2) ℚ).mulVec ![1, -2] i := by
  have hinv : np_linalg_inv (1 : Matrix (Fin 2) (Fin 2) ℚ) = some 1 := by
    simp [np_linalg_inv, Matrix.det_one, Matrix.adjugate_one]
  have hpre : mpt_pre_weights (1 : Matrix (Fin 2) (Fin 2) ℚ) ![1, -2] (1 / 2)
      = ![1 / 4, -(1 / 2)] := by
    funext i
    rw [mpt_pre_weights, Matrix.one_mulVec, risk_aversion_of,
      if_pos (by norm_num : (0 : ℚ) < 1 / 2)]
    fin_cases i <;>
      norm_num [Matrix.cons_val_zero, Matrix.cons_val_one, Matrix.head_cons]
  have hnorm : mpt_normalized (mpt_pre_weights (1 : Matrix (Fin 2) (Fin 2) ℚ)
      ![1, -2] (1 / 2)) = equal_weights 2 := by
    rw [hpre, mpt_normalized, if_neg]
    rw [Fin.sum_univ_two]
    norm_num [Matrix.cons_val_zero, Matrix.cons_val_one, Matrix.head_cons]
  have hproj : ∀ i, mpt_project (equal_weights 2) i = 1 / 2 := by
    intro i
    simp only [mpt_project, normalize_weights, equal_weights, Fin.sum_univ_two,
      Nat.cast_ofNat]
    norm_num
  refine ⟨hinv, ?_, ?_⟩
  · rw [hnorm]
    intro i
    exact equal_weights_nonneg i
  · rintro ⟨c, hc⟩
    have hout : optimize_with_modern_portfolio_theory 2 ![1, -2] 1 (1 / 2)
        none none = mpt_project (equal_weights 2) := by
      simp only [optimize_with_modern_portfolio_theory, hinv, hnorm]
    have h0 := hc 0
    have h1 := hc 1
    rw [hout, hproj 0, Matrix.one_mulVec] at h0
    rw [hout, hproj 1, Matrix.one_mulVec] at h1
    simp only [Matrix.cons_val_zero, Matrix.cons_val_one, Matrix.head_cons] at h0 h1
    linarith

/-- C3 (amended): on the constrained success path, with feasible bounds and
a solver result honouring the scipy contract (within bounds, summing to 1),
the returned weights satisfy the per-asset bounds. -/
theorem constrained_success_within_bounds (n : ℕ) (returns : Fin n → ℚ)
    (covariance_matrix : Matrix (Fin n) (Fin n) ℚ) (risk_factor : ℚ)
    (c : Constraints n) (x : Fin n → ℚ)
    (_hb : validBounds c)
    (hx : ∀ i, c.min_weights i ≤ x i ∧ x i ≤ c.max_weights i)
    (hxsum : (∑ i, x i) = 1) :
    ∀ i, c.min_weights i ≤ optimize_with_modern_portfolio_theory n returns
        covariance_matrix risk_factor (some c) (some ⟨true, x⟩) i ∧
      optimize_with_modern_portfolio_theory n returns covariance_matrix
        risk_factor (some c) (some ⟨true, x⟩) i ≤ c.max_weights i := by
  intro i
  have hgoal : optimize_with_modern_portfolio_theory n returns covariance_matrix
      risk_factor (some c) (some ⟨true, x⟩) =
      normalize_weights (clip_weights c x) := rfl
  have hclip : ∀ j, clip_weights c x j = x j := by
    intro j
    simp only [clip_weights]
    rw [max_eq_left (hx j).1, min_eq_left (hx j).2]
  have hclipsum : (∑ j, clip_weights c x j) = 1 := by
    rw [Finset.sum_congr rfl fun j _ => hclip j, hxsum]
  have hval : optimize_with_modern_portfolio_theory n returns covariance_matrix
      risk_factor (some c) (some ⟨true, x⟩) i = x i := by
    rw [hgoal]
    simp only [normalize_weights, hclipsum, hclip i, div_one]
  rw [hval]
  exact hx i

/-- Witness for C3 (amended): the spec scenario — 2 assets with min weight
1/2 on asset 0 — on the success path. -/
theorem constrained_success_within_bounds_witness :
    (validBounds (⟨![1 / 2, 0], ![1, 1]⟩ : Constraints 2) ∧
      (∀ i, (⟨![1 / 2, 0], ![1, 1]⟩ : Constraints 2).min_weights i ≤
          (![1 / 2, 1 / 2] : Fin 2 → ℚ) i ∧
        (![1 / 2, 1 / 2] : Fin 2 → ℚ) i ≤
          (⟨![1 / 2, 0], ![1, 1]⟩ : Constraints 2).max_weights i) ∧
      (∑ i, (![1 / 2, 1 / 2] : Fin 2 → ℚ) i) = 1) ∧
    ∀ i, (⟨![1 / 2, 0], ![1, 1]⟩ : Constraints 2).min_weights i ≤
        optimize_with_modern_portfolio_theory 2 ![1, 1] 1 (1 / 2)
          (some ⟨![1 / 2, 0], ![1, 1]⟩) (some ⟨true, ![1 / 2, 1 / 2]⟩) i ∧
      optimize_with_modern_portfolio_theory 2 ![1, 1] 1 (1 / 2)
          (some ⟨![1 / 2, 0], ![1, 1]⟩) (some ⟨true, ![1 / 2, 1 / 2]⟩) i ≤
        (⟨![1 / 2, 0], ![1, 1]⟩ : Constraints 2).max_weights i := by
  have hb : validBounds (⟨![1 / 2, 0], ![1, 1]⟩ : Constraints 2) := by
    refine ⟨fun i => ?_, ?_, ?_⟩
    · fin_cases i <;>
        norm_num [Matrix.cons_val_zero, Matrix.cons_val_one, Matrix.head_cons]
    · rw [Fin.sum_univ_two]
      norm_num [Matrix.cons_val_zero, Matrix.cons_val_one, Matrix.head_cons]
    · rw [Fin.sum_univ_two]
      norm_num [Matrix.cons_val_zero, Matrix.cons_val_one, Matrix.head_cons]
  have hx : ∀ i, (⟨![1 / 2, 0], ![1, 1]⟩ : Constraints 2).min_weights i ≤
      (![1 / 2, 1 / 2] : Fin 2 → ℚ) i ∧
      (![1 / 2, 1 / 2] : Fin 2 → ℚ) i ≤
        (⟨![1 / 2, 0], ![1, 1]⟩ : Constraints 2).max_weights i := by
    intro i
    fin_cases i <;>
      norm_num [Matrix.cons_val_zero, Matrix.cons_val_one, Matrix.head_cons]
  have hxsum : (∑ i, (![1 / 2, 1 / 2] : Fin 2 → ℚ) i) = 1 := by
    rw [Fin.sum_univ_two]
    norm_num [Matrix.cons_val_zero, Matrix.cons_val_one, Matrix.head_cons]
  exact ⟨⟨hb, hx, hxsum⟩,
    constrained_success_within_bounds 2 ![1, 1] 1 (1 / 2) _ _ hb hx hxsum⟩

/-- C3 counterexample: the feasible bound set min = (4/5, 0), max = (4/5, 1)
is valid, yet the non-convergence fallback (the normalized
midpoint-of-bounds initial guess) returns weight 8/13 < 4/5 for asset 0,
violating its lower bound. -/
theorem constrained_bounds_counterexample :
    validBounds (⟨![4 / 5, 0], ![4 / 5, 1]⟩ : Constraints 2) ∧
    optimize_with_modern_portfolio_theory 2 ![1, 1] 1 (1 / 2)
        (some ⟨![4 / 5, 0], ![4 / 5, 1]⟩) (some ⟨false, ![1 / 2, 1 / 2]⟩) 0
      < (⟨![4 / 5, 0], ![4 / 5, 1]⟩ : Constraints 2).min_weights 0 := by
  constructor
  · refine ⟨fun i => ?_, ?_, ?_⟩
    · fin_cases i <;>
        norm_num [Matrix.cons_val_zero, Matrix.cons_val_one, Matrix.head_cons]
    · rw [Fin.sum_univ_two]
      norm_num [Matrix.cons_val_zero, Matrix.cons_val_one, Matrix.head_cons]
    · rw [Fin.sum_univ_two]
      norm_num [Matrix.cons_val_zero, Matrix.cons_val_one, Matrix.head_cons]
  · have hg : optimize_with_modern_portfolio_theory 2 ![1, 1] 1 (1 / 2)
        (some ⟨![4 / 5, 0], ![4 / 5, 1]⟩) (some ⟨false, ![1 / 2, 1 / 2]⟩) =
        initial_guess ⟨![4 / 5, 0], ![4 / 5, 1]⟩ := rfl
    rw [hg]
    simp only [initial_guess, normalize_weights, Fin.sum_univ_two]
    norm_num [Matrix.cons_val_zero, Matrix.cons_val_one, Matrix.head_cons]

/-- C5 (amended): on a singular covariance matrix, `np.linalg.inv` raises
inside the try block and the blanket except clause returns equal weights
1/n; no error is surfaced to the caller. -/
theorem singular_covariance_equal_weights (n : ℕ) (returns : Fin n → ℚ)
    (covariance_matrix : Matrix (Fin n) (Fin n) ℚ) (risk_factor : ℚ)
    (hdet : covariance_matrix.det = 0) :
    optimize_with_modern_portfolio_theory n returns covariance_matrix risk_factor
      none none = equal_weights n := by
  unfold optimize_with_modern_portfolio_theory np_linalg_inv
  rw [if_pos hdet]

/-- Witness for C5 (amended): a concrete singular 2×2 covariance matrix. -/
theorem singular_covariance_equal_weights_witness :
    (!![1, 1; 1, 1] : Matrix (Fin 2) (Fin 2) ℚ).det = 0 ∧
    optimize_with_modern_portfolio_theory 2 ![1, 2] !![1, 1; 1, 1] (1 / 2)
      none none = equal_weights 2 := by
  have hdet : (!![1, 1; 1, 1] : Matrix (Fin 2) (Fin 2) ℚ).det = 0 := by
    rw [Matrix.det_fin_two_of]
    norm_num
  exact ⟨hdet,
    singular_covariance_equal_weights 2 ![1, 2] !![1, 1; 1, 1] (1 / 2) hdet⟩

/-- C5 counterexample: on the singular covariance `[[1,1],[1,1]]` the solver
does not fail — it returns the equal-weight vector (1/2, 1/2). -/
theorem singular_covariance_counterexample :
    (!![2, 2; 2, 2] : Matrix (Fin 2) (Fin 2) ℚ).det = 0 ∧
    ∀ i, optimize_with_modern_portfolio_theory 2 ![1, 2] !![2, 2; 2, 2] (1 / 2)
      none none i = 1 / 2 := by
  have hdet : (!![2, 2; 2, 2] : Matrix (Fin 2) (Fin 2) ℚ).det = 0 := by
    rw [Matrix.det_fin_two_of]
    norm_num
  refine ⟨hdet, fun i => ?_⟩
  have hg : optimize_with_modern_portfolio_theory 2 ![1, 2] !![2, 2; 2, 2]
      (1 / 2) none none = equal_weights 2 := by
    unfold optimize_with_modern_portfolio_theory np_linalg_inv
    rw [if_pos hdet]
  rw [hg]
  norm_num [equal_weights]

/-- C7: with a symmetric positive-semidefinite covariance matrix the
radicand `wᵗ·Cov·w` is nonnegative (so treating it as clamped to ≥ 0 is
vacuously faithful), the reported expectedRisk is nonnegative, and the
Sharpe ratio is 0 whenever the risk is 0 (hence finite in every case, by
the guarded definition). -/
theorem metrics_risk_nonneg_sharpe_zero {n : ℕ} (returns : Fin n → ℝ)
    (covariance_matrix : Matrix (Fin n) (Fin n) ℝ) (weights : Fin n → ℝ)
    (hpsd : covariance_matrix.PosSemidef) :
    0 ≤ Matrix.dotProduct weights (covariance_matrix.mulVec weights) ∧
    0 ≤ (calculate_portfolio_metrics returns covariance_matrix
        weights).expectedRisk ∧
    (Real.sqrt (Matrix.dotProduct weights (covariance_matrix.mulVec weights))
        = 0 →
      (calculate_portfolio_metrics returns covariance_matrix weights).sharpe
        = 0) := by
  have hvar : 0 ≤ Matrix.dotProduct weights (covariance_matrix.mulVec weights) := by
    simpa [star_trivial] using hpsd.2 weights
  refine ⟨hvar, ?_, ?_⟩
  · exact pyround_nonneg 2 _ (by positivity)
  · intro h0
    simp only [calculate_portfolio_metrics]
    rw [h0, if_neg (lt_irrefl 0)]
    exact pyround_zero 3

/-- Witness for C7: identity covariance, which is positive semidefinite. -/
theorem metrics_risk_nonneg_sharpe_zero_witness :
    (1 : Matrix (Fin 1) (Fin 1) ℝ).PosSemidef ∧
    (0 ≤ Matrix.dotProduct (fun _ => 1)
        ((1 : Matrix (Fin 1) (Fin 1) ℝ).mulVec fun _ => 1) ∧
      0 ≤ (calculate_portfolio_metrics (fun _ => 0) (1 : Matrix (Fin 1) (Fin 1) ℝ)
          fun _ => 1).expectedRisk ∧
      (Real.sqrt (Matrix.dotProduct (fun _ => 1)
          ((1 : Matrix (Fin 1) (Fin 1) ℝ).mulVec fun _ => 1)) = 0 →
        (calculate_portfolio_metrics (fun _ => 0) (1 : Matrix (Fin 1) (Fin 1) ℝ)
          fun _ => 1).sharpe = 0)) :=
  ⟨Matrix.PosSemidef.one,
    metrics_risk_nonneg_sharpe_zero (fun _ => 0) 1 (fun _ => 1)
      Matrix.PosSemidef.one⟩

/-- C8: the efficient frontier is sorted by nondecreasing risk, has strictly
increasing return (in particular no two consecutive points have
`ret[i+1] ≤ ret[i]`), and no point is both higher-risk and lower-return
than an earlier one. -/
theorem efficient_frontier_sorted_nondominated {n : ℕ} (returns : Fin n → ℝ)
    (covariance_matrix : Matrix (Fin n) (Fin n) ℝ) (num_portfolios : ℕ)
    (rand : ℕ → Fin n → ℝ) :
    (generate_efficient_frontier returns covariance_matrix num_portfolios
        rand).Sorted (fun p q => p.risk ≤ q.risk) ∧
    (generate_efficient_frontier returns covariance_matrix num_portfolios
        rand).Sorted (fun p q => p.ret < q.ret) ∧
    (generate_efficient_frontier returns covariance_matrix num_portfolios
        rand).Sorted (fun p q => ¬ (p.risk < q.risk ∧ q.ret < p.ret)) := by
  have hretsorted := frontier_sweep_ret_sorted
    (frontier_sort ((List.range num_portfolios).map fun k =>
      frontier_sample_point returns covariance_matrix (rand k))) none
  have hrisksorted : (generate_efficient_frontier returns covariance_matrix
      num_portfolios rand).Sorted fun p q => p.risk ≤ q.risk := by
    have hsorted : (frontier_sort ((List.range num_portfolios).map fun k =>
        frontier_sample_point returns covariance_matrix (rand k))).Sorted
        fun p q => p.risk ≤ q.risk :=
      List.sorted_insertionSort _ _
    exact hsorted.sublist (frontier_sweep_sublist _ none)
  refine ⟨hrisksorted, hretsorted, ?_⟩
  exact hretsorted.imp fun hlt hand => absurd hand.2 (not_lt.mpr hlt.le)

/-- C9 (amended): the data-fetch stage never produces the
`InsufficientDataError` the spec postulates — every path (simulated data,
empty download, non-empty download) returns a (returns, covariance)
pair. -/
theorem fetch_always_returns_pair (n : ℕ) (riskLevels : Fin n → ℚ)
    (use_real_data : Bool) (table : Option (List (PriceRow n)))
    (U : Matrix (Fin n) (Fin n) ℚ) :
    (fetch_real_historical_data n riskLevels use_real_data table U).isOk
      = true := by
  cases use_real_data with
  | false => rfl
  | true =>
    cases table with
    | none => rfl
    | some rows => rfl

/-- C9 counterexample: with an empty downloaded price table (and likewise
with any table) the stage does not fail — at this concrete input it falls
back to the simulated generator and returns a (returns, covariance)
pair. -/
theorem empty_table_returns_pair_counterexample :
    (fetch_real_historical_data 1 (fun _ => 5) true none 1).isOk = true ∧
    fetch_real_historical_data 1 (fun _ => 5) true none 1
      = fetch_simulated_data 1 (fun _ => 5) 1 :=
  ⟨rfl, rfl⟩

/-- C10: the metrics dict holds the percent-scaled, rounded values of the
raw quantities (return rounded to 2 decimals after ×100, risk likewise,
Sharpe computed from the unscaled quantities and rounded to 3 decimals),
and each efficient-frontier sample point applies exactly the same scaling
and rounding — its fields coincide with `calculate_portfolio_metrics`
applied to the normalized sample. -/
theorem metrics_percent_scaled_rounded {n : ℕ} (returns : Fin n → ℝ)
    (covariance_matrix : Matrix (Fin n) (Fin n) ℝ) (weights : Fin n → ℝ)
    (sample : Fin n → ℝ) :
    (calculate_portfolio_metrics returns covariance_matrix
        weights).expectedReturn
      = pyround 2 ((∑ i, weights i * returns i) * 100) ∧
    (calculate_portfolio_metrics returns covariance_matrix weights).expectedRisk
      = pyround 2 (Real.sqrt
          (∑ i, weights i * ∑ j, covariance_matrix i j * weights j) * 100) ∧
    (calculate_portfolio_metrics returns covariance_matrix weights).sharpe
      = pyround 3 (if 0 < Real.sqrt
            (∑ i, weights i * ∑ j, covariance_matrix i j * weights j)
          then ((∑ i, weights i * returns i) - 2 / 100) / Real.sqrt
            (∑ i, weights i * ∑ j, covariance_matrix i j * weights j)
          else 0) ∧
    frontier_sample_point returns covariance_matrix sample =
      { risk := (calculate_portfolio_metrics returns covariance_matrix
          fun i => sample i / ∑ j, sample j).expectedRisk
        ret := (calculate_portfolio_metrics returns covariance_matrix
          fun i => sample i / ∑ j, sample j).expectedReturn
        sharpe := (calculate_portfolio_metrics returns covariance_matrix
          fun i => sample i / ∑ j, sample j).sharpe } := by
  refine ⟨?_, ?_, ?_, rfl⟩ <;>
    simp [calculate_portfolio_metrics, Matrix.dotProduct, Matrix.mulVec]

/-- C6 (code bug evidence): `main` maps the risk dial 5 to risk factor 1/2
(line 917), but `backtest_optimization` passes the hard-coded risk factor
5.0 (line 375) to the classical solver — not `targetRiskLevel / 10`. -/
theorem backtest_risk_factor_mismatch :
    main_risk_factor 5 = 1 / 2 ∧ backtest_risk_factor = 5 ∧
      backtest_risk_factor ≠ main_risk_factor 5 := by
  refine ⟨by norm_num [main_risk_factor], rfl, ?_⟩
  norm_num [main_risk_factor, backtest_risk_factor]

end QFN
